import Mathlib

/-!
Verification of the NDEF/NTAG core of `sketch_nov2a.ino` (pocket-pitch).

Bytes are modelled as `Nat` values; where the C source casts to `uint8_t`
the embedding applies `% 256` explicitly.  A C string becomes a
`List Nat` of its byte values; the Arduino `String` result of the reader
becomes a `List Nat` of byte values as well (empty list = the empty
string that the source returns on every failure path).

The tag transport (`Adafruit_PN532`) is modelled as a structure of two
capabilities: `readPage` (returns `none` when `ntag2xx_ReadPage` fails)
and `writePage` (returns `false` when `ntag2xx_WritePage` fails).
-/

namespace PocketPitch

/-- Transport abstraction over the PN532 page interface:
`readPage i` models `ntag2xx_ReadPage(i, buf)` (the 4 returned bytes, or
`none` on failure), `writePage i bs` models `ntag2xx_WritePage(i, buf)`
returning success. -/
structure Transport where
  readPage : Nat → Option (List Nat)
  writePage : Nat → List Nat → Bool

/-! ### Reader: `readNtagNdefUri` (source lines 221-316) -/

/-- The scanning state of `readNtagNdefUri`'s page loop: the locals
`seenTlvStart`, `seenLen`, `ndefLen`, `collected` and the buffer
`ndefBytes` (whose fill level `ndefIndex` equals `ndefBytes.length`). -/
structure RdState where
  seenTlvStart : Bool
  seenLen : Bool
  ndefLen : Nat
  collected : Nat
  ndefBytes : List Nat
deriving Repr, DecidableEq

/-- Initial values of the reader locals (source lines 224-231). -/
def initState : RdState := ⟨false, false, 0, 0, []⟩

/-- One iteration of the inner `for (int i = 0; i < 4; ++i)` byte loop of
`readNtagNdefUri` (source lines 240-272), on a single byte.  The `Bool`
component is `true` when the source executes `goto parse_done`. -/
def stepByte (s : RdState) (b : Nat) : RdState × Bool :=
  if s.seenTlvStart = false then
    if b = 0x00 then (s, false)
    else if b = 0x03 then ({ s with seenTlvStart := true }, false)
    else (s, false)
  else if s.seenLen = false then
    if b = 0 then ({ s with ndefLen := b, seenLen := true }, true)
    else ({ s with ndefLen := b, seenLen := true }, false)
  else
    if s.collected < s.ndefLen ∧ s.ndefBytes.length < 480 then
      let s' : RdState :=
        { s with ndefBytes := s.ndefBytes ++ [b], collected := s.collected + 1 }
      if s.ndefLen ≤ s.collected + 1 then (s', true) else (s', false)
    else (s, false)

/-- Run `stepByte` over a list of bytes, stopping early when the source
would `goto parse_done`. -/
def stepBytes (s : RdState) (bs : List Nat) : RdState × Bool :=
  match bs with
  | [] => (s, false)
  | b :: rest =>
    let r := stepByte s b
    if r.2 then r else stepBytes r.1 rest

/-- The outer `for (int iter = 0; iter < 128; ++iter)` page loop of
`readNtagNdefUri` (source lines 234-275): read a page, feed its bytes to
the byte loop, stop on read failure (`break`), on `goto parse_done`, or
when the 128-iteration safety cap is exhausted. -/
def readPages (mem : Nat → Option (List Nat)) (page : Nat) (iter : Nat)
    (s : RdState) : RdState :=
  match iter with
  | 0 => s
  | iter' + 1 =>
    match mem page with
    | none => s
    | some bs =>
      let r := stepBytes s bs
      if r.2 then r.1 else readPages mem (page + 1) iter' r.1

/-- Byte values of a string literal. -/
def strBytes (s : String) : List Nat := s.data.map Char.toNat

/-- The URI-prefix table of `readNtagNdefUri` (source lines 300-313):
for a nonzero identifier code, the `switch` maps 0x01-0x04 to fixed
prefixes and everything else to the empty prefix; identifier code 0x00
skips the block entirely (no prefix). -/
def uriPfx (idCode : Nat) : List Nat :=
  if idCode ≠ 0x00 then
    if idCode = 0x01 then strBytes "http://www."
    else if idCode = 0x02 then strBytes "https://www."
    else if idCode = 0x03 then strBytes "http://"
    else if idCode = 0x04 then strBytes "https://"
    else []
  else []

/-- The record-parsing tail of `readNtagNdefUri` (source lines 283-315):
require at least 5 collected bytes, read header/typeLen/payloadLen/type/
idCode at indices 0-4 (none of the first four is validated), take the
remaining bytes as the URI and prepend the prefix selected by `idCode`. -/
def parseRecord (bs : List Nat) : List Nat :=
  if bs.length < 5 then []
  else uriPfx (bs.getD 4 0) ++ bs.drop 5

/-- The `parse_done:` section of `readNtagNdefUri` (source lines
277-315): return the empty string unless a TLV start and length were
seen and at least one byte was collected, else parse the collected
record. -/
def parseScan (s : RdState) : List Nat :=
  if s.seenTlvStart = false ∨ s.seenLen = false ∨ s.collected = 0 then []
  else parseRecord s.ndefBytes

/-- `readNtagNdefUri` (source lines 221-316): run the page scan from
page 4 with the 128-page cap, then parse what was collected. -/
def readNtagNdefUri (t : Transport) : List Nat :=
  parseScan (readPages t.readPage 4 128 initState)

/-! ### Writer: `writeNtagUri` (source lines 142-217) -/

/-- The NDEF record bytes composed into `ndef[]` (source lines 157-165):
header 0xD1, type length 0x01, payload length `(uint8_t)(1 + urlLen)`,
type 0x55, identifier code 0x00, then the URL bytes (each cast to
`uint8_t`). -/
def ndefOf (url : List Nat) : List Nat :=
  [0xD1, 0x01, (1 + url.length) % 256, 0x55, 0x00] ++ url.map (· % 256)

/-- The encoding stage of `writeNtagUri` viewed as the spec's
`NdefUriCodec.encode`: the `urlLen > 200` guard (source lines 149-154)
followed by record construction; `none` models the failure return. -/
def encodeNdef (url : List Nat) : Option (List Nat) :=
  if url.length > 200 then none else some (ndefOf url)

/-- The TLV built into `tlv[]` (source lines 167-180): tag 0x03, the
one-byte length `(uint8_t)np`, the record bytes, terminator 0xFE. -/
def tlvOf (url : List Nat) : List Nat :=
  [0x03, (ndefOf url).length % 256] ++ ndefOf url ++ [0xFE]

/-- Fill a 4-byte page buffer from the remaining TLV bytes, padding with
zeros (source lines 193-197). -/
def padTo4 (bs : List Nat) : List Nat := bs ++ List.replicate (4 - bs.length) 0

/-- Result of `writeNtagUri`, refining the source's `bool` by which
`return false` path was taken (per the spec's error taxonomy). -/
inductive WriteResult where
  | ok
  | valueTooLarge
  | recordTooLarge
  | tagUnresponsive
  | writeFailedAtPage (n : Nat)
deriving Repr, DecidableEq

/-- The page-write loop of `writeNtagUri` (source lines 190-213): while
TLV bytes remain, fill a zero-padded 4-byte buffer, attempt the page
write, abort with failure at the current page index if it fails, else
continue at the next page.  Returns the trace of attempted page writes
(index, 4 bytes) in order, and the result. -/
def writeLoop (w : Nat → List Nat → Bool) (tlv : List Nat) (page : Nat) :
    List (Nat × List Nat) × WriteResult :=
  if h : tlv = [] then ([], WriteResult.ok)
  else
    let buf := padTo4 (tlv.take 4)
    if w page buf then
      let r := writeLoop w (tlv.drop 4) (page + 1)
      ((page, buf) :: r.1, r.2)
    else ([(page, buf)], WriteResult.writeFailedAtPage page)
termination_by tlv.length
decreasing_by
  have hl : 0 < tlv.length := List.length_pos.mpr h
  simp [List.length_drop]
  omega

/-- The full sequence of page writes a completely successful run of the
write loop performs, starting at `page`. -/
def fullPages (tlv : List Nat) (page : Nat) : List (Nat × List Nat) :=
  if h : tlv = [] then []
  else (page, padTo4 (tlv.take 4)) :: fullPages (tlv.drop 4) (page + 1)
termination_by tlv.length
decreasing_by
  have hl : 0 < tlv.length := List.length_pos.mpr h
  simp [List.length_drop]
  omega

/-- `writeNtagUri` (source lines 142-217): the 200-byte URL guard, record
and TLV construction, the `np <= 0xFF` guard, the pre-flight read of
page 4 (source lines 183-188), then the page-write loop starting at
page 4. -/
def writeNtagUri (t : Transport) (url : List Nat) :
    List (Nat × List Nat) × WriteResult :=
  if url.length > 200 then ([], WriteResult.valueTooLarge)
  else if (ndefOf url).length ≤ 0xFF then
    match t.readPage 4 with
    | none => ([], WriteResult.tagUnresponsive)
    | some _ => writeLoop t.writePage (tlvOf url) 4
  else ([], WriteResult.recordTooLarge)

/-! ### Tag memory holding a written byte sequence -/

/-- A transport whose user memory, starting at page 4, holds the given
bytes followed by zeros (the 512-byte window covers the reader's
128-page scan); reads below page 4 fail. -/
def tagMemRead (bytes : List Nat) (p : Nat) : Option (List Nat) :=
  if p < 4 then none
  else some (((bytes ++ List.replicate 512 0).drop ((p - 4) * 4)).take 4)

/-- Transport backed by `tagMemRead`; writes always succeed. -/
def memTransport (bytes : List Nat) : Transport :=
  ⟨tagMemRead bytes, fun _ _ => true⟩

/-! ### Scheduler: `loop` (source lines 102-136) -/

/-- Observable effects of one fired scheduler tick. -/
inductive Event where
  | renderEv (label url : String)
  | probeEv
  | writeEv (url : String)
deriving Repr, DecidableEq

/-- The rotation list `qrList[]` of the source (lines 34-38). -/
def qrList : List (String × String) :=
  [("ESPN Homepage", "https://www.espn.com"),
   ("Purdue University", "https://www.purdue.edu"),
   ("GitHub", "https://www.github.com")]

/-- The body of `loop`'s fired interval branch (source lines 108-134) as
an event trace plus the new rotation index: display the current entry
(`displayQRCodeWithLabel`), probe once for a tag
(`readPassiveTargetID`), write the current URL only when the probe
succeeded, then advance `currentQR` modulo the list length. -/
def tickEvents (qrs : List (String × String)) (probe : Bool) (cur : Nat) :
    List Event × Nat :=
  let qr := qrs.getD cur ("", "")
  ([Event.renderEv qr.1 qr.2, Event.probeEv]
     ++ (if probe then [Event.writeEv qr.2] else []),
   (cur + 1) % qrs.length)


/-! ### Scanner lemmas -/

lemma stepBytes_nil (s : RdState) : stepBytes s [] = (s, false) := rfl

lemma stepBytes_cons (s : RdState) (b : Nat) (rest : List Nat) :
    stepBytes s (b :: rest) =
      if (stepByte s b).2 then stepByte s b else stepBytes (stepByte s b).1 rest := rfl

lemma stepBytes_cons_cont (s s' : RdState) (b : Nat) (rest : List Nat)
    (h : stepByte s b = (s', false)) :
    stepBytes s (b :: rest) = stepBytes s' rest := by
  rw [stepBytes_cons, h]; exact rfl

lemma stepBytes_cons_done (s s' : RdState) (b : Nat) (rest : List Nat)
    (h : stepByte s b = (s', true)) :
    stepBytes s (b :: rest) = (s', true) := by
  rw [stepBytes_cons, h]; exact rfl

lemma readPages_zero (mem : Nat → Option (List Nat)) (page : Nat) (s : RdState) :
    readPages mem page 0 s = s := rfl

lemma readPages_succ_none (mem : Nat → Option (List Nat)) (page n : Nat)
    (s : RdState) (h : mem page = none) : readPages mem page (n + 1) s = s := by
  rw [readPages, h]

lemma readPages_succ_cont (mem : Nat → Option (List Nat)) (page n : Nat)
    (s s' : RdState) (bs : List Nat) (h : mem page = some bs)
    (h2 : stepBytes s bs = (s', false)) :
    readPages mem page (n + 1) s = readPages mem (page + 1) n s' := by
  simp only [readPages, h, h2]
  exact rfl

lemma readPages_succ_done (mem : Nat → Option (List Nat)) (page n : Nat)
    (s s' : RdState) (bs : List Nat) (h : mem page = some bs)
    (h2 : stepBytes s bs = (s', true)) :
    readPages mem page (n + 1) s = s' := by
  simp only [readPages, h, h2]
  exact rfl

/-- Running the byte loop over a concatenation: stop inside `xs` if the
early exit fires there, otherwise continue into `ys`. -/
lemma stepBytes_append (s : RdState) (xs ys : List Nat) :
    stepBytes s (xs ++ ys) =
      if (stepBytes s xs).2 then stepBytes s xs
      else stepBytes (stepBytes s xs).1 ys := by
  induction xs generalizing s with
  | nil => rw [List.nil_append, stepBytes_nil]; simp
  | cons b rest ih =>
    rw [List.cons_append]
    rcases hsb : stepByte s b with ⟨s', d⟩
    cases d
    · rw [stepBytes_cons_cont s s' b (rest ++ ys) hsb,
        stepBytes_cons_cont s s' b rest hsb]
      exact ih s'
    · rw [stepBytes_cons_done s s' b (rest ++ ys) hsb,
        stepBytes_cons_done s s' b rest hsb]
      exact rfl

/-- Before the TLV start has been seen, any byte other than 0x03 leaves
the scanner state unchanged. -/
lemma stepByte_skip (s : RdState) (b : Nat) (hs : s.seenTlvStart = false)
    (hb : b ≠ 0x03) : stepByte s b = (s, false) := by
  simp [stepByte, hs, hb]

/-- Before the TLV start has been seen, a run of bytes containing no
0x03 leaves the scanner state unchanged. -/
lemma stepBytes_skip (bs : List Nat) (s : RdState) (hs : s.seenTlvStart = false)
    (hb : ∀ b ∈ bs, b ≠ 0x03) : stepBytes s bs = (s, false) := by
  induction bs with
  | nil => rfl
  | cons b rest ih =>
    rw [stepBytes_cons_cont s s b rest (stepByte_skip s b hs (hb b (by simp)))]
    exact ih fun b' h' => hb b' (by simp [h'])

/-- Once in collection mode with exactly `r.length ≥ 1` bytes missing,
the byte loop consumes exactly `r`, stores it, and fires the early
exit, leaving any following bytes unread. -/
lemma stepBytes_collect :
    ∀ (r : List Nat) (rest : List Nat) (s : RdState),
      s.seenTlvStart = true → s.seenLen = true →
      s.collected + r.length = s.ndefLen →
      s.ndefBytes.length = s.collected →
      s.collected < s.ndefLen → s.ndefLen ≤ 480 →
      stepBytes s (r ++ rest) =
        ({ s with ndefBytes := s.ndefBytes ++ r, collected := s.ndefLen }, true) := by
  intro r
  induction r with
  | nil => intro rest s _ _ h3 _ h5 _; simp at h3; omega
  | cons b r' ih =>
    intro rest s h1 h2 h3 h4 h5 h6
    have hcond : s.collected < s.ndefLen ∧ s.ndefBytes.length < 480 := ⟨h5, by omega⟩
    rw [List.cons_append]
    by_cases hdone : s.ndefLen ≤ s.collected + 1
    · have hr' : r' = [] := by
        cases r' with
        | nil => rfl
        | cons x xs => simp [List.length_cons] at h3; omega
      subst hr'
      have hb : stepByte s b =
          ({ s with ndefBytes := s.ndefBytes ++ [b], collected := s.collected + 1 },
           true) := by
        unfold stepByte
        rw [if_neg (by simp [h1]), if_neg (by simp [h2]), if_pos hcond, if_pos hdone]
      rw [stepBytes_cons_done _ _ _ _ hb]
      have hc : s.collected + 1 = s.ndefLen := by simp at h3; omega
      simp [hc]
    · have hb : stepByte s b =
          ({ s with ndefBytes := s.ndefBytes ++ [b], collected := s.collected + 1 },
           false) := by
        unfold stepByte
        rw [if_neg (by simp [h1]), if_neg (by simp [h2]), if_pos hcond, if_neg hdone]
      rw [stepBytes_cons_cont _ _ _ _ hb]
      have := ih rest
        { s with ndefBytes := s.ndefBytes ++ [b], collected := s.collected + 1 }
        (by simp [h1]) (by simp [h2]) (by simp [List.length_cons] at h3 ⊢; omega)
        (by simp [h4]) (by simp; omega) (by simpa using h6)
      simpa [List.append_assoc] using this

/-- The page loop over the zero-padded memory image of `bytes` computes
the byte loop over the flat byte stream. -/
lemma readPages_tagMem (bytes : List Nat) :
    ∀ (iter k : Nat) (s : RdState),
      readPages (tagMemRead bytes) (4 + k) iter s =
        (stepBytes s (((bytes ++ List.replicate 512 0).drop (k * 4)).take (iter * 4))).1 := by
  intro iter
  induction iter with
  | zero =>
    intro k s
    rw [readPages_zero, Nat.zero_mul, List.take_zero, stepBytes_nil]
  | succ n ih =>
    intro k s
    have hmem : tagMemRead bytes (4 + k) =
        some (((bytes ++ List.replicate 512 0).drop (k * 4)).take 4) := by
      unfold tagMemRead
      rw [if_neg (by omega)]
      have h4 : (4 + k - 4) * 4 = k * 4 := by omega
      rw [h4]
    have hsplit :
        (((bytes ++ List.replicate 512 0).drop (k * 4)).take ((n + 1) * 4)) =
          ((bytes ++ List.replicate 512 0).drop (k * 4)).take 4 ++
            ((bytes ++ List.replicate 512 0).drop ((k + 1) * 4)).take (n * 4) := by
      have h1 : (n + 1) * 4 = 4 + n * 4 := by ring
      rw [h1, List.take_add, List.drop_drop]
      have h2 : k * 4 + 4 = (k + 1) * 4 := by ring
      rw [h2]
    rw [hsplit, stepBytes_append]
    rcases hsb : stepBytes s (((bytes ++ List.replicate 512 0).drop (k * 4)).take 4)
      with ⟨s', d⟩
    cases d
    · rw [readPages_succ_cont _ _ _ _ s' _ hmem hsb, hsb]
      exact ih (k + 1) s'
    · rw [readPages_succ_done _ _ _ _ s' _ hmem hsb, hsb]
      exact rfl

/-- The page loop only depends on the memory contents of the pages it
may touch: `page` through `page + iter - 1`. -/
lemma readPages_congr (mem mem' : Nat → Option (List Nat)) :
    ∀ (iter page : Nat) (s : RdState),
      (∀ p, page ≤ p → p < page + iter → mem p = mem' p) →
      readPages mem page iter s = readPages mem' page iter s := by
  intro iter
  induction iter with
  | zero => intro page s _; rfl
  | succ n ih =>
    intro page s h
    have hpage : mem' page = mem page := (h page (Nat.le_refl page) (by omega)).symm
    cases hm : mem page with
    | none => rw [readPages_succ_none _ _ _ _ hm, readPages_succ_none _ _ _ _ (hpage ▸ hm)]
    | some bs =>
      rcases hsb : stepBytes s bs with ⟨s', d⟩
      cases d
      · rw [readPages_succ_cont _ _ _ _ s' _ hm hsb,
          readPages_succ_cont _ _ _ _ s' _ (hpage ▸ hm) hsb]
        exact ih (page + 1) s' fun p h1 h2 => h p (by omega) (by omega)
      · rw [readPages_succ_done _ _ _ _ s' _ hm hsb,
          readPages_succ_done _ _ _ _ s' _ (hpage ▸ hm) hsb]

/-- If no byte of any successfully read page below the cap is 0x03, the
page loop never leaves the scanning-for-start state. -/
lemma readPages_no3 (mem : Nat → Option (List Nat)) :
    ∀ (iter page : Nat) (s : RdState), s.seenTlvStart = false →
      (∀ p, page ≤ p → p < page + iter → ∀ bs, mem p = some bs → 0x03 ∉ bs) →
      readPages mem page iter s = s := by
  intro iter
  induction iter with
  | zero => intro page s _ _; rfl
  | succ n ih =>
    intro page s hs h
    cases hm : mem page with
    | none => exact readPages_succ_none _ _ _ _ hm
    | some bs =>
      rw [readPages_succ_cont _ _ _ _ s _ hm
        (stepBytes_skip bs s hs fun b hb => by
          intro h3
          exact h page (Nat.le_refl page) (by omega) bs hm (h3 ▸ hb))]
      exact ih (page + 1) s hs fun p h1 h2 => h p (by omega) (by omega)

/-- Reading back a tag whose memory holds exactly the TLV framing of a
record `rec` of 1-255 bytes recovers `rec` and hands it to the record
parser. -/
lemma read_written (rec : List Nat) (h1 : 1 ≤ rec.length) (h2 : rec.length ≤ 255) :
    readNtagNdefUri (memTransport ([0x03, rec.length] ++ rec ++ [0xFE])) =
      parseRecord rec := by
  have h0 := readPages_tagMem ([0x03, rec.length] ++ rec ++ [0xFE]) 128 0 initState
  rw [Nat.add_zero, Nat.zero_mul, List.drop_zero] at h0
  have hstream :
      ((([0x03, rec.length] ++ rec ++ [0xFE]) ++ List.replicate 512 0)).take (128 * 4)
        = 0x03 :: rec.length :: (rec ++ (0xFE :: List.replicate (509 - rec.length) 0)) := by
    rw [show (128 * 4 : Nat) = 512 from rfl]
    rw [List.take_append_eq_append_take,
      List.take_of_length_le (l := [0x03, rec.length] ++ rec ++ [0xFE]) (by simp; omega),
      List.take_replicate]
    have hlen : ([0x03, rec.length] ++ rec ++ [0xFE]).length = rec.length + 3 := by
      simp
    rw [hlen]
    have hmin : (512 - (rec.length + 3)) ⊓ 512 = 509 - rec.length := by omega
    rw [hmin]
    simp only [List.cons_append, List.nil_append, List.append_assoc,
      List.singleton_append]
  rw [hstream] at h0
  have hb1 : stepByte initState 0x03 = (⟨true, false, 0, 0, []⟩, false) := by decide
  have hb2 : stepByte ⟨true, false, 0, 0, []⟩ rec.length =
      (⟨true, true, rec.length, 0, []⟩, false) := by
    have hz : ¬(rec.length = 0) := by omega
    simp [stepByte, hz]
  have hcoll := stepBytes_collect rec (0xFE :: List.replicate (509 - rec.length) 0)
    ⟨true, true, rec.length, 0, []⟩ rfl rfl (by simp) rfl (by simpa using h1)
    (by show rec.length ≤ 480; omega)
  have hscan : stepBytes initState
      (0x03 :: rec.length :: (rec ++ (0xFE :: List.replicate (509 - rec.length) 0)))
      = (⟨true, true, rec.length, rec.length, rec⟩, true) := by
    rw [stepBytes_cons_cont _ _ _ _ hb1, stepBytes_cons_cont _ _ _ _ hb2]
    simpa using hcoll
  rw [hscan] at h0
  show parseScan (readPages (tagMemRead ([0x03, rec.length] ++ rec ++ [0xFE])) 4 128
    initState) = parseRecord rec
  rw [h0]
  show parseScan ⟨true, true, rec.length, rec.length, rec⟩ = parseRecord rec
  unfold parseScan
  have hcond : ¬((⟨true, true, rec.length, rec.length, rec⟩ : RdState).seenTlvStart = false ∨
      (⟨true, true, rec.length, rec.length, rec⟩ : RdState).seenLen = false ∨
      (⟨true, true, rec.length, rec.length, rec⟩ : RdState).collected = 0) := by
    rintro (hc | hc | hc)
    · exact absurd hc (by simp)
    · exact absurd hc (by simp)
    · have hz : rec.length = 0 := hc
      omega
  rw [if_neg hcond]

/-! ### Writer lemmas -/

lemma fullPages_nil (page : Nat) : fullPages [] page = [] := by
  rw [fullPages]
  rfl

lemma fullPages_cons (tlv : List Nat) (page : Nat) (h : tlv ≠ []) :
    fullPages tlv page =
      (page, padTo4 (tlv.take 4)) :: fullPages (tlv.drop 4) (page + 1) := by
  rw [fullPages, dif_neg h]

lemma writeLoop_nil (w : Nat → List Nat → Bool) (page : Nat) :
    writeLoop w [] page = ([], WriteResult.ok) := by
  rw [writeLoop]
  rfl

lemma writeLoop_cons_ok (w : Nat → List Nat → Bool) (tlv : List Nat) (page : Nat)
    (h : tlv ≠ []) (hw : w page (padTo4 (tlv.take 4)) = true) :
    writeLoop w tlv page =
      ((page, padTo4 (tlv.take 4)) :: (writeLoop w (tlv.drop 4) (page + 1)).1,
        (writeLoop w (tlv.drop 4) (page + 1)).2) := by
  rw [writeLoop, dif_neg h, if_pos hw]

lemma writeLoop_cons_fail (w : Nat → List Nat → Bool) (tlv : List Nat) (page : Nat)
    (h : tlv ≠ []) (hw : w page (padTo4 (tlv.take 4)) = false) :
    writeLoop w tlv page =
      ([(page, padTo4 (tlv.take 4))], WriteResult.writeFailedAtPage page) := by
  rw [writeLoop, dif_neg h, if_neg (by simp [hw])]

/-- Number of pages in a full write: the ceiling of the TLV length over
the 4-byte page size. -/
lemma fullPages_length :
    ∀ (n : Nat) (tlv : List Nat), tlv.length ≤ n → ∀ page,
      (fullPages tlv page).length = (tlv.length + 3) / 4 := by
  intro n
  induction n with
  | zero =>
    intro tlv h page
    have hnil : tlv = [] := List.length_eq_zero.mp (by omega)
    subst hnil
    simp [fullPages_nil]
  | succ n ih =>
    intro tlv h page
    by_cases htlv : tlv = []
    · subst htlv; simp [fullPages_nil]
    · have hlen : 0 < tlv.length := List.length_pos.mpr htlv
      have hdl : (tlv.drop 4).length = tlv.length - 4 := by simp
      rw [fullPages_cons tlv page htlv, List.length_cons,
        ih (tlv.drop 4) (by omega) (page + 1), hdl]
      omega

/-- A full write touches consecutive page indices starting at `page`. -/
lemma fullPages_fst :
    ∀ (n : Nat) (tlv : List Nat), tlv.length ≤ n → ∀ page,
      (fullPages tlv page).map Prod.fst =
        List.range' page ((tlv.length + 3) / 4) := by
  intro n
  induction n with
  | zero =>
    intro tlv h page
    have hnil : tlv = [] := List.length_eq_zero.mp (by omega)
    subst hnil
    simp [fullPages_nil]
  | succ n ih =>
    intro tlv h page
    by_cases htlv : tlv = []
    · subst htlv; simp [fullPages_nil]
    · have hlen : 0 < tlv.length := List.length_pos.mpr htlv
      have hdl : (tlv.drop 4).length = tlv.length - 4 := by simp
      rw [fullPages_cons tlv page htlv, List.map_cons,
        ih (tlv.drop 4) (by omega) (page + 1), hdl]
      dsimp only
      have harith : (tlv.length + 3) / 4 = (tlv.length - 4 + 3) / 4 + 1 := by omega
      rw [harith, List.range'_succ]

/-- The bytes of a full write are exactly the TLV followed by the
zero padding of the final partial page. -/
lemma fullPages_join :
    ∀ (n : Nat) (tlv : List Nat), tlv.length ≤ n → ∀ page,
      ((fullPages tlv page).map Prod.snd).flatten =
        tlv ++ List.replicate ((tlv.length + 3) / 4 * 4 - tlv.length) 0 := by
  intro n
  induction n with
  | zero =>
    intro tlv h page
    have hnil : tlv = [] := List.length_eq_zero.mp (by omega)
    subst hnil
    simp [fullPages_nil]
  | succ n ih =>
    intro tlv h page
    by_cases htlv : tlv = []
    · subst htlv; simp [fullPages_nil]
    · have hlen : 0 < tlv.length := List.length_pos.mpr htlv
      have hdl : (tlv.drop 4).length = tlv.length - 4 := by simp
      rw [fullPages_cons tlv page htlv, List.map_cons]
      dsimp only
      rw [List.flatten_cons, ih (tlv.drop 4) (by omega) (page + 1), hdl]
      unfold padTo4
      by_cases h4 : 4 ≤ tlv.length
      · have htk : (tlv.take 4).length = 4 := by simp; omega
        rw [htk]
        have hz : (4 : Nat) - 4 = 0 := rfl
        rw [hz, List.replicate_zero, List.append_nil, ← List.append_assoc,
          List.take_append_drop]
        have hc : (tlv.length - 4 + 3) / 4 * 4 - (tlv.length - 4) =
            (tlv.length + 3) / 4 * 4 - tlv.length := by omega
        rw [hc]
      · have hdrop : tlv.drop 4 = [] := List.drop_eq_nil_of_le (by omega)
        have htake : tlv.take 4 = tlv := List.take_of_length_le (by omega)
        rw [hdrop, htake, List.nil_append]
        have h0 : (tlv.length - 4 + 3) / 4 * 4 - (tlv.length - 4) = 0 := by omega
        rw [h0, List.replicate_zero, List.append_nil]
        have hc : 4 - tlv.length = (tlv.length + 3) / 4 * 4 - tlv.length := by omega
        rw [hc]

/-- When every page write succeeds the write loop performs exactly the
full write sequence and reports success. -/
lemma writeLoop_all_ok (w : Nat → List Nat → Bool) (hW : ∀ p b, w p b = true) :
    ∀ (n : Nat) (tlv : List Nat), tlv.length ≤ n → ∀ page,
      writeLoop w tlv page = (fullPages tlv page, WriteResult.ok) := by
  intro n
  induction n with
  | zero =>
    intro tlv h page
    have hnil : tlv = [] := List.length_eq_zero.mp (by omega)
    subst hnil
    rw [writeLoop_nil, fullPages_nil]
  | succ n ih =>
    intro tlv h page
    by_cases htlv : tlv = []
    · subst htlv; rw [writeLoop_nil, fullPages_nil]
    · have hdl : (tlv.drop 4).length = tlv.length - 4 := by simp
      have hlen : 0 < tlv.length := List.length_pos.mpr htlv
      rw [writeLoop_cons_ok w tlv page htlv (hW _ _), fullPages_cons tlv page htlv,
        ih (tlv.drop 4) (by omega) (page + 1)]

/-- If the first `k` page writes succeed and the `(k+1)`-st fails, the
write loop attempts exactly the first `k+1` pages of the full sequence
(each once, in order), stops, and reports failure at page `page + k`. -/
lemma writeLoop_fail (w : Nat → List Nat → Bool) :
    ∀ (k : Nat) (tlv : List Nat) (page : Nat),
      k < (fullPages tlv page).length →
      (∀ j, j < k → w ((fullPages tlv page).getD j (0, [])).1
          ((fullPages tlv page).getD j (0, [])).2 = true) →
      w ((fullPages tlv page).getD k (0, [])).1
          ((fullPages tlv page).getD k (0, [])).2 = false →
      writeLoop w tlv page =
        ((fullPages tlv page).take (k + 1),
          WriteResult.writeFailedAtPage (page + k)) := by
  intro k
  induction k with
  | zero =>
    intro tlv page hk hbef hfail
    have htlv : tlv ≠ [] := by
      intro hnil; subst hnil; rw [fullPages_nil] at hk; simp at hk
    have hcons := fullPages_cons tlv page htlv
    rw [hcons, List.getD_cons_zero] at hfail
    rw [writeLoop_cons_fail w tlv page htlv hfail, hcons, List.take_succ_cons,
      List.take_zero, Nat.add_zero]
  | succ k ih =>
    intro tlv page hk hbef hfail
    have htlv : tlv ≠ [] := by
      intro hnil; subst hnil; rw [fullPages_nil] at hk; simp at hk
    have hcons := fullPages_cons tlv page htlv
    have h0 : w page (padTo4 (tlv.take 4)) = true := by
      have hb := hbef 0 (Nat.succ_pos k)
      rw [hcons, List.getD_cons_zero] at hb
      exact hb
    have hk' : k < (fullPages (tlv.drop 4) (page + 1)).length := by
      rw [hcons, List.length_cons] at hk
      omega
    have hbef' : ∀ j, j < k →
        w ((fullPages (tlv.drop 4) (page + 1)).getD j (0, [])).1
          ((fullPages (tlv.drop 4) (page + 1)).getD j (0, [])).2 = true := by
      intro j hj
      have hb := hbef (j + 1) (by omega)
      rw [hcons, List.getD_cons_succ] at hb
      exact hb
    have hfail' :
        w ((fullPages (tlv.drop 4) (page + 1)).getD k (0, [])).1
          ((fullPages (tlv.drop 4) (page + 1)).getD k (0, [])).2 = false := by
      rw [hcons, List.getD_cons_succ] at hfail
      exact hfail
    rw [writeLoop_cons_ok w tlv page htlv h0,
      ih (tlv.drop 4) (page + 1) hk' hbef' hfail', hcons, List.take_succ_cons]
    have harith : page + 1 + k = page + (k + 1) := by omega
    rw [harith]

lemma ndefOf_length (url : List Nat) : (ndefOf url).length = 5 + url.length := by
  simp [ndefOf]
  omega

/-- `writeNtagUri` when the URL passes the length guard and the
pre-flight read of page 4 fails. -/
lemma writeNtagUri_preflight_fail (t : Transport) (url : List Nat)
    (hlen : url.length ≤ 200) (hread : t.readPage 4 = none) :
    writeNtagUri t url = ([], WriteResult.tagUnresponsive) := by
  unfold writeNtagUri
  rw [if_neg (by omega), if_pos (by rw [ndefOf_length]; omega), hread]

/-- `writeNtagUri` when the URL passes the length guard and the
pre-flight read of page 4 succeeds: it runs the page-write loop on the
TLV starting at page 4. -/
lemma writeNtagUri_run (t : Transport) (url : List Nat) (bs : List Nat)
    (hlen : url.length ≤ 200) (hread : t.readPage 4 = some bs) :
    writeNtagUri t url = writeLoop t.writePage (tlvOf url) 4 := by
  unfold writeNtagUri
  rw [if_neg (by omega), if_pos (by rw [ndefOf_length]; omega), hread]

/-- `writeNtagUri` rejects URLs longer than 200 bytes without touching
the transport. -/
lemma writeNtagUri_too_long (t : Transport) (url : List Nat)
    (hlen : url.length > 200) :
    writeNtagUri t url = ([], WriteResult.valueTooLarge) := by
  unfold writeNtagUri
  rw [if_pos hlen]

/-! ### Shared helper lemmas for the claim theorems -/

lemma map_mod_eq_self (l : List Nat) (h : ∀ b ∈ l, b < 256) :
    l.map (· % 256) = l := by
  induction l with
  | nil => rfl
  | cons a t ih =>
    rw [List.map_cons, Nat.mod_eq_of_lt (h a (by simp)),
      ih fun b hb => h b (by simp [hb])]

lemma parseRecord_cons5 (a b c t id : Nat) (u : List Nat) :
    parseRecord ([a, b, c, t, id] ++ u) = uriPfx id ++ u := by
  unfold parseRecord
  rw [if_neg (by simp)]
  simp only [List.cons_append, List.nil_append, List.getD_cons_succ,
    List.getD_cons_zero, List.drop_succ_cons, List.drop_zero]

lemma getD_fst_map :
    ∀ (l : List (Nat × List Nat)) (k : Nat),
      (l.map Prod.fst).getD k 0 = (l.getD k (0, [])).1 := by
  intro l
  induction l with
  | nil => intro k; rfl
  | cons a t ih =>
    intro k
    cases k with
    | zero => rfl
    | succ k => rw [List.map_cons, List.getD_cons_succ, List.getD_cons_succ]; exact ih k

lemma fullPages_fst_getD (tlv : List Nat) (page k : Nat)
    (hk : k < (fullPages tlv page).length) :
    ((fullPages tlv page).getD k (0, [])).1 = page + k := by
  rw [← getD_fst_map, fullPages_fst (tlv.length) tlv (Nat.le_refl _) page]
  have hlen := fullPages_length (tlv.length) tlv (Nat.le_refl _) page
  have hk' : k < (List.range' page ((tlv.length + 3) / 4)).length := by
    rw [List.length_range']
    omega
  rw [List.getD_eq_getElem _ _ hk', List.getElem_range']
  omega

lemma tlvOf_eq (url : List Nat) (hlen : url.length ≤ 200) :
    tlvOf url = [0x03, (ndefOf url).length] ++ ndefOf url ++ [0xFE] := by
  unfold tlvOf
  rw [ndefOf_length, Nat.mod_eq_of_lt (by omega), ← ndefOf_length]

lemma parseRecord_ndefOf (url : List Nat) (hbytes : ∀ b ∈ url, b < 256) :
    parseRecord (ndefOf url) = url := by
  unfold ndefOf
  rw [parseRecord_cons5]
  rw [(by decide : uriPfx 0x00 = ([] : List Nat)), List.nil_append,
    map_mod_eq_self url hbytes]

/-! ### Claim theorems -/

/-- C1: for every URL of length 0-200, encoding then TLV-wrapping
produces exactly `[0x03][5+urlLen][0xD1][0x01][1+urlLen][0x55][0x00]
[url bytes verbatim][0xFE]`: the TLV length byte equals the record byte
count `5 + urlLen`, the identifier code is always 0x00, and the full URL
is stored verbatim with no prefix compression. -/
theorem C1_tlv_layout (url : List Nat) (hlen : url.length ≤ 200)
    (hbytes : ∀ b ∈ url, b < 256) :
    tlvOf url =
      0x03 :: (5 + url.length) :: 0xD1 :: 0x01 :: (1 + url.length) :: 0x55 :: 0x00 ::
        (url ++ [0xFE]) := by
  rw [tlvOf_eq url hlen, ndefOf_length]
  unfold ndefOf
  rw [Nat.mod_eq_of_lt (by omega), map_mod_eq_self url hbytes]
  simp only [List.cons_append, List.nil_append, List.append_assoc]

/-- C1 witness: the theorem applied to the 2-byte URL "hi". -/
theorem C1_tlv_layout_witness :
    ([0x68, 0x69] : List Nat).length ≤ 200 ∧
    (∀ b ∈ ([0x68, 0x69] : List Nat), b < 256) ∧
    tlvOf [0x68, 0x69] =
      [0x03, 0x07, 0xD1, 0x01, 0x03, 0x55, 0x00, 0x68, 0x69, 0xFE] :=
  ⟨by decide, by decide, by rw [C1_tlv_layout [0x68, 0x69] (by decide) (by decide)]; decide⟩

/-- C2: for every URL of length 0-200 containing only printable ASCII
bytes, decoding the encoded record recovers the original URL exactly:
reading back a tag memory holding the encoded TLV yields the URL,
because encode always produces identifier code 0x00. -/
theorem C2_roundtrip (url : List Nat) (hlen : url.length ≤ 200)
    (hascii : ∀ b ∈ url, 0x20 ≤ b ∧ b ≤ 0x7E) :
    readNtagNdefUri (memTransport (tlvOf url)) = url := by
  have hbytes : ∀ b ∈ url, b < 256 := fun b hb => by
    have := hascii b hb
    omega
  rw [tlvOf_eq url hlen,
    read_written (ndefOf url) (by rw [ndefOf_length]; omega) (by rw [ndefOf_length]; omega),
    parseRecord_ndefOf url hbytes]

/-- C2 witness: the round trip on the concrete URL of the source's first
rotation entry. -/
theorem C2_roundtrip_witness :
    (strBytes "https://www.espn.com").length ≤ 200 ∧
    (∀ b ∈ strBytes "https://www.espn.com", 0x20 ≤ b ∧ b ≤ 0x7E) ∧
    readNtagNdefUri (memTransport (tlvOf (strBytes "https://www.espn.com"))) =
      strBytes "https://www.espn.com" :=
  ⟨by decide, by decide, C2_roundtrip _ (by decide) (by decide)⟩

/-- C3: encode succeeds for every URL of at most 200 bytes and fails
with ValueTooLarge for every longer URL, producing no output (and the
full writer likewise returns the failure with an empty write trace). -/
theorem C3_encode_boundary :
    (∀ url : List Nat, url.length ≤ 200 → encodeNdef url = some (ndefOf url)) ∧
    (∀ url : List Nat, url.length > 200 → encodeNdef url = none) ∧
    (∀ (t : Transport) (url : List Nat), url.length > 200 →
      writeNtagUri t url = ([], WriteResult.valueTooLarge)) := by
  refine ⟨?_, ?_, ?_⟩
  · intro url h
    unfold encodeNdef
    rw [if_neg (by omega)]
  · intro url h
    unfold encodeNdef
    rw [if_pos h]
  · intro t url h
    exact writeNtagUri_too_long t url h

/-- C3 witness: the boundary at exactly 200 and 201 bytes. -/
theorem C3_encode_boundary_witness :
    (List.replicate 200 0x61).length ≤ 200 ∧
    encodeNdef (List.replicate 200 0x61) = some (ndefOf (List.replicate 200 0x61)) ∧
    (List.replicate 201 0x61).length > 200 ∧
    encodeNdef (List.replicate 201 0x61) = none ∧
    writeNtagUri (memTransport []) (List.replicate 201 0x61) =
      ([], WriteResult.valueTooLarge) :=
  ⟨le_of_eq (List.length_replicate 200 0x61),
    C3_encode_boundary.1 _ (le_of_eq (List.length_replicate 200 0x61)),
    by simp only [List.length_replicate]; omega,
    C3_encode_boundary.2.1 _ (by simp only [List.length_replicate]; omega),
    C3_encode_boundary.2.2 (memTransport []) _
      (by simp only [List.length_replicate]; omega)⟩

/-- C4: a fully successful write of the TLV wrapping an encoded URL
performs exactly `ceil(T/4) = (T+3)/4` page writes, to the consecutive
page indices `4, 5, ...`, and the bytes written are exactly the TLV
followed by the zero padding of the final partial page. -/
theorem C4_page_count (url : List Nat) (w : Nat → List Nat → Bool)
    (hlen : url.length ≤ 200) (hW : ∀ p b, w p b = true) :
    (writeLoop w (tlvOf url) 4).2 = WriteResult.ok ∧
    (writeLoop w (tlvOf url) 4).1.length = ((tlvOf url).length + 3) / 4 ∧
    (writeLoop w (tlvOf url) 4).1.map Prod.fst =
      List.range' 4 (((tlvOf url).length + 3) / 4) ∧
    ((writeLoop w (tlvOf url) 4).1.map Prod.snd).flatten =
      tlvOf url ++
        List.replicate ((((tlvOf url).length + 3) / 4) * 4 - (tlvOf url).length) 0 := by
  rw [writeLoop_all_ok w hW (tlvOf url).length (tlvOf url) (Nat.le_refl _) 4]
  exact ⟨rfl, fullPages_length _ _ (Nat.le_refl _) 4,
    fullPages_fst _ _ (Nat.le_refl _) 4, fullPages_join _ _ (Nat.le_refl _) 4⟩

/-- C4 witness: the claim's own example, the 1-byte URL "a": a 9-byte
TLV written as 3 pages starting at page 4, the last page padded with 3
zero bytes. -/
theorem C4_page_count_witness :
    ([0x61] : List Nat).length ≤ 200 ∧
    (∀ p b, (fun (_ : Nat) (_ : List Nat) => true) p b = true) ∧
    (writeLoop (fun _ _ => true) (tlvOf [0x61]) 4).2 = WriteResult.ok ∧
    (tlvOf [0x61]).length = 9 ∧
    (writeLoop (fun _ _ => true) (tlvOf [0x61]) 4).1.length = 3 ∧
    (writeLoop (fun _ _ => true) (tlvOf [0x61]) 4).1.map Prod.fst = [4, 5, 6] ∧
    (writeLoop (fun _ _ => true) (tlvOf [0x61]) 4).1 =
      [(4, [0x03, 0x06, 0xD1, 0x01]), (5, [0x02, 0x55, 0x00, 0x61]),
        (6, [0xFE, 0x00, 0x00, 0x00])] := by
  have hrun : writeLoop (fun (_ : Nat) (_ : List Nat) => true) (tlvOf [0x61]) 4 =
      ([(4, [0x03, 0x06, 0xD1, 0x01]), (5, [0x02, 0x55, 0x00, 0x61]),
        (6, [0xFE, 0x00, 0x00, 0x00])], WriteResult.ok) := by
    simp [writeLoop, tlvOf, ndefOf, padTo4]
  refine ⟨by decide, fun p b => rfl,
    (C4_page_count [0x61] (fun _ _ => true) (by decide) (fun p b => rfl)).1,
    by decide, ?_, ?_, ?_⟩
  · rw [hrun]; rfl
  · rw [hrun]; rfl
  · rw [hrun]

/-- C5: the writer reads page 4 as a pre-flight check and fails with
TagUnresponsive, writing no page at all, when that read fails; when the
pre-flight succeeds the writer is exactly the page-write loop; and if
the first `k` page writes succeed and write `k+1` fails, the loop stops
immediately with WriteFailedAtPage at that page's index (`page + k`),
having attempted exactly the first `k+1` pages of the full sequence
once each, retrying nothing. -/
theorem C5_failure_propagation :
    (∀ (t : Transport) (url : List Nat), url.length ≤ 200 →
      t.readPage 4 = none →
      writeNtagUri t url = ([], WriteResult.tagUnresponsive)) ∧
    (∀ (t : Transport) (url : List Nat) (bs : List Nat), url.length ≤ 200 →
      t.readPage 4 = some bs →
      writeNtagUri t url = writeLoop t.writePage (tlvOf url) 4) ∧
    (∀ (w : Nat → List Nat → Bool) (tlv : List Nat) (page k : Nat),
      k < (fullPages tlv page).length →
      (∀ j, j < k → w ((fullPages tlv page).getD j (0, [])).1
          ((fullPages tlv page).getD j (0, [])).2 = true) →
      w ((fullPages tlv page).getD k (0, [])).1
          ((fullPages tlv page).getD k (0, [])).2 = false →
      writeLoop w tlv page =
        ((fullPages tlv page).take (k + 1),
          WriteResult.writeFailedAtPage (page + k)) ∧
        ((fullPages tlv page).getD k (0, [])).1 = page + k) := by
  refine ⟨writeNtagUri_preflight_fail, writeNtagUri_run, ?_⟩
  intro w tlv page k hk hbef hfail
  exact ⟨writeLoop_fail w k tlv page hk hbef hfail, fullPages_fst_getD tlv page k hk⟩

/-- C5 witness: a transport whose page-4 read fails yields
TagUnresponsive with an empty write trace; and on the TLV of the 1-byte
URL "a", a write collaborator that fails exactly at page 5 makes the
loop stop after attempting pages 4 and 5, reporting failure at page 5. -/
theorem C5_failure_propagation_witness :
    (([0x61] : List Nat).length ≤ 200 ∧
      (Transport.mk (fun _ => none) (fun _ _ => true)).readPage 4 = none ∧
      writeNtagUri (Transport.mk (fun _ => none) (fun _ _ => true)) [0x61] =
        ([], WriteResult.tagUnresponsive)) ∧
    (1 < (fullPages (tlvOf [0x61]) 4).length ∧
      writeLoop (fun p _ => decide (p ≠ 5)) (tlvOf [0x61]) 4 =
        ((fullPages (tlvOf [0x61]) 4).take 2, WriteResult.writeFailedAtPage 5)) := by
  have hfp : fullPages (tlvOf [0x61]) 4 =
      [(4, [0x03, 0x06, 0xD1, 0x01]), (5, [0x02, 0x55, 0x00, 0x61]),
        (6, [0xFE, 0x00, 0x00, 0x00])] := by
    simp [fullPages, tlvOf, ndefOf, padTo4]
  refine ⟨⟨by decide, rfl, C5_failure_propagation.1 _ [0x61] (by decide) rfl⟩, ?_, ?_⟩
  · rw [hfp]; decide
  · have h5 := (C5_failure_propagation.2.2 (fun p _ => decide (p ≠ 5))
      (tlvOf [0x61]) 4 1 (by rw [hfp]; decide)
      (by intro j hj; interval_cases j; rw [hfp]; decide)
      (by rw [hfp]; decide)).1
    simpa using h5

/-- C6: the TLV scan skips every byte preceding the first 0x03; the
reader consults only pages 4 through 131 (the 128-page cap, so it
terminates regardless of tag contents); it returns the empty NotFound
result when no 0x03 byte occurs in any page within the cap, and also
when the TLV found carries length byte zero. -/
theorem C6_scan_policy :
    (∀ (junk rest : List Nat), (∀ b ∈ junk, b ≠ 0x03) →
      stepBytes initState (junk ++ rest) = stepBytes initState rest) ∧
    (∀ t t' : Transport,
      (∀ p, 4 ≤ p → p < 132 → t.readPage p = t'.readPage p) →
      readNtagNdefUri t = readNtagNdefUri t') ∧
    (∀ t : Transport,
      (∀ p, 4 ≤ p → p < 132 → ∀ bs, t.readPage p = some bs → 0x03 ∉ bs) →
      readNtagNdefUri t = []) ∧
    (∀ (bytes junk rest : List Nat),
      (bytes ++ List.replicate 512 0).take 512 = junk ++ 0x03 :: 0x00 :: rest →
      (∀ b ∈ junk, b ≠ 0x03) →
      readNtagNdefUri (memTransport bytes) = []) := by
  have hskip : ∀ (junk rest : List Nat), (∀ b ∈ junk, b ≠ 0x03) →
      stepBytes initState (junk ++ rest) = stepBytes initState rest := by
    intro junk rest hj
    rw [stepBytes_append, stepBytes_skip junk initState rfl hj]
    exact rfl
  refine ⟨hskip, ?_, ?_, ?_⟩
  · intro t t' h
    unfold readNtagNdefUri
    rw [readPages_congr t.readPage t'.readPage 128 4 initState
      (fun p h1 h2 => h p h1 (by omega))]
  · intro t h
    unfold readNtagNdefUri
    rw [readPages_no3 t.readPage 128 4 initState rfl
      (fun p h1 h2 bs hbs => h p h1 (by omega) bs hbs)]
    decide
  · intro bytes junk rest hsplit hj
    have h0 := readPages_tagMem bytes 128 0 initState
    rw [Nat.add_zero, Nat.zero_mul, List.drop_zero,
      (by decide : (128 * 4 : Nat) = 512), hsplit, hskip junk _ hj] at h0
    have hb1 : stepByte initState 0x03 = (⟨true, false, 0, 0, []⟩, false) := by decide
    have hb2 : stepByte ⟨true, false, 0, 0, []⟩ 0x00 =
        (⟨true, true, 0, 0, []⟩, true) := by decide
    rw [stepBytes_cons_cont _ _ _ _ hb1, stepBytes_cons_done _ _ _ _ hb2] at h0
    show parseScan (readPages (tagMemRead bytes) 4 128 initState) = []
    rw [h0]
    decide

set_option maxRecDepth 8192 in
/-- C6 witness: the skip property on a concrete junk prefix; cap
irrelevance between a memory and its restriction to pages below 132; the
NotFound result on an all-0x01 tag memory; and the NotFound result on a
tag whose TLV has length byte zero. -/
theorem C6_scan_policy_witness :
    ((∀ b ∈ ([0x00, 0x01] : List Nat), b ≠ 0x03) ∧
      stepBytes initState ([0x00, 0x01] ++ [0x03, 0x02]) =
        stepBytes initState [0x03, 0x02]) ∧
    ((∀ p, 4 ≤ p → p < 132 →
        (memTransport [0x01, 0x02]).readPage p =
          (Transport.mk (fun p => if p < 132 then tagMemRead [0x01, 0x02] p else none)
            (fun _ _ => true)).readPage p) ∧
      readNtagNdefUri (memTransport [0x01, 0x02]) =
        readNtagNdefUri
          (Transport.mk (fun p => if p < 132 then tagMemRead [0x01, 0x02] p else none)
            (fun _ _ => true))) ∧
    ((∀ p, 4 ≤ p → p < 132 → ∀ bs,
        (memTransport []).readPage p = some bs → 0x03 ∉ bs) ∧
      readNtagNdefUri (memTransport []) = []) ∧
    ((([0x00, 0x03, 0x00, 0x07] ++ List.replicate 512 0).take 512 =
        [0x00] ++ 0x03 :: 0x00 :: (0x07 :: List.replicate 508 0) ∧
      (∀ b ∈ ([0x00] : List Nat), b ≠ 0x03)) ∧
      readNtagNdefUri (memTransport [0x00, 0x03, 0x00, 0x07]) = []) := by
  have hagree : ∀ p, 4 ≤ p → p < 132 →
      (memTransport [0x01, 0x02]).readPage p =
        (Transport.mk (fun p => if p < 132 then tagMemRead [0x01, 0x02] p else none)
          (fun _ _ => true)).readPage p := by
    intro p h1 h2
    show tagMemRead [0x01, 0x02] p = if p < 132 then tagMemRead [0x01, 0x02] p else none
    rw [if_pos h2]
  have hno3 : ∀ p, 4 ≤ p → p < 132 → ∀ bs,
      (memTransport []).readPage p = some bs → 0x03 ∉ bs := by
    intro p h1 h2 bs hbs
    have hbs' : (if p < 4 then none
        else some ((([] ++ List.replicate 512 0).drop ((p - 4) * 4)).take 4)) =
          some bs := hbs
    rw [if_neg (by omega)] at hbs'
    have hbseq : bs = (([] ++ List.replicate 512 0).drop ((p - 4) * 4)).take 4 :=
      (Option.some.injEq _ _ ▸ hbs').symm
    intro hmem
    rw [hbseq] at hmem
    have h3 : (0x03 : Nat) ∈ ([] ++ List.replicate 512 (0 : Nat)) :=
      List.mem_of_mem_drop (List.mem_of_mem_take hmem)
    rw [List.nil_append] at h3
    exact absurd (List.eq_of_mem_replicate h3) (by omega)
  have hsplit : (([0x00, 0x03, 0x00, 0x07] ++ List.replicate 512 0).take 512 :
      List Nat) = [0x00] ++ 0x03 :: 0x00 :: (0x07 :: List.replicate 508 0) := by
    rfl
  refine ⟨⟨by decide, C6_scan_policy.1 [0x00, 0x01] [0x03, 0x02] (by decide)⟩,
    ⟨hagree, C6_scan_policy.2.1 _ _ hagree⟩,
    ⟨hno3, C6_scan_policy.2.2.1 _ hno3⟩,
    ⟨⟨hsplit, by decide⟩,
      C6_scan_policy.2.2.2 [0x00, 0x03, 0x00, 0x07] [0x00]
        (0x07 :: List.replicate 508 0) hsplit (by decide)⟩⟩

/-- C7 counterexample: a record whose type byte is 0x54 ('T'), not 0x55,
still decodes successfully to its non-empty payload instead of failing:
the reader performs no type-byte validation, so no UnsupportedType
failure exists in the code. -/
theorem C7_type_check_cex :
    readNtagNdefUri
        (memTransport [0x03, 0x06, 0xD1, 0x01, 0x02, 0x54, 0x00, 0x61, 0xFE]) =
      [0x61] ∧
    parseRecord [0xD1, 0x01, 0x02, 0x54, 0x00, 0x61] = [0x61] ∧
    ([0x61] : List Nat) ≠ [] := by
  refine ⟨rfl, by decide, by decide⟩

/-- C7 amended: decode fails (returns the empty failure result) for
every input of fewer than 5 bytes, but it never validates the type byte:
any record of at least 5 bytes decodes to the prefix selected by its
identifier code followed by the remaining payload, whatever its type
byte is. -/
theorem C7_malformed_only (r : List Nat) (hr : r.length < 5) :
    parseRecord r = [] ∧
    (∀ a b c t id u, parseRecord ([a, b, c, t, id] ++ u) = uriPfx id ++ u) := by
  constructor
  · unfold parseRecord
    rw [if_pos hr]
  · exact parseRecord_cons5

/-- C7 witness: the amended theorem applied to the 2-byte input and to a
record with the text type byte 0x54. -/
theorem C7_malformed_only_witness :
    ([0x01, 0x02] : List Nat).length < 5 ∧
    parseRecord [0x01, 0x02] = [] ∧
    parseRecord ([0xD1, 0x01, 0x02, 0x54, 0x00] ++ [0x61]) =
      uriPfx 0x00 ++ [0x61] :=
  ⟨by decide, (C7_malformed_only [0x01, 0x02] (by decide)).1,
    (C7_malformed_only [0x01, 0x02] (by decide)).2 0xD1 0x01 0x02 0x54 0x00 [0x61]⟩

/-- C8: decode prepends the prefix given by the identifier-code table
0x00 ↦ \"\", 0x01 ↦ \"http://www.\", 0x02 ↦ \"https://www.\",
0x03 ↦ \"http://\", 0x04 ↦ \"https://\", and every identifier code
outside 0x00-0x04 decodes successfully with the empty prefix rather
than failing. -/
theorem C8_prefix_table :
    uriPfx 0x00 = [] ∧
    uriPfx 0x01 = strBytes "http://www." ∧
    uriPfx 0x02 = strBytes "https://www." ∧
    uriPfx 0x03 = strBytes "http://" ∧
    uriPfx 0x04 = strBytes "https://" ∧
    (∀ id, 5 ≤ id → uriPfx id = []) ∧
    (∀ a b c t id u, parseRecord ([a, b, c, t, id] ++ u) = uriPfx id ++ u) := by
  refine ⟨by decide, by decide, by decide, by decide, by decide, ?_, parseRecord_cons5⟩
  intro id h5
  unfold uriPfx
  rw [if_pos (by omega), if_neg (by omega), if_neg (by omega), if_neg (by omega),
    if_neg (by omega)]

/-- C8 witness: the unknown identifier code 0x09 decodes with no prefix
and no failure. -/
theorem C8_prefix_table_witness :
    (5 : Nat) ≤ 9 ∧ uriPfx 9 = [] ∧
    parseRecord ([0xD1, 0x01, 0x02, 0x55, 0x09] ++ [0x61]) = uriPfx 9 ++ [0x61] ∧
    uriPfx 9 ++ [0x61] = [0x61] :=
  ⟨by decide, C8_prefix_table.2.2.2.2.2.1 9 (by decide),
    C8_prefix_table.2.2.2.2.2.2 0xD1 0x01 0x02 0x55 0x09 [0x61], by decide⟩

/-- C9 counterexample: on a tick whose probe returns false, the
scheduler's first observable event is the render call and not the tag
probe — the code renders before handling the tag, refuting the claimed
handle-tag-then-render-then-advance ordering. -/
theorem C9_ordering_cex :
    (tickEvents qrList false 0).1 =
      [Event.renderEv "ESPN Homepage" "https://www.espn.com", Event.probeEv] ∧
    (tickEvents qrList false 0).1 ≠
      [Event.probeEv, Event.renderEv "ESPN Homepage" "https://www.espn.com"] := by
  exact ⟨rfl, by decide⟩

/-- C9 amended: on every tick where the tag-presence probe returns
false, no write event occurs, the render collaborator is invoked exactly
once with the current rotation entry, and the rotation index advances by
1 modulo the list length — but the in-tick order is render first, then
the tag probe, with the index advance last. -/
theorem C9_tag_absent_tick (qrs : List (String × String)) (cur : Nat) :
    tickEvents qrs false cur =
      ([Event.renderEv (qrs.getD cur ("", "")).1 (qrs.getD cur ("", "")).2,
        Event.probeEv],
       (cur + 1) % qrs.length) := by
  unfold tickEvents
  simp

/-- C10: the number of record bytes the reader collects is dictated
solely by the TLV length byte, and the decoded URI is exactly the
collected bytes after the first five: the record's own payload-length
field (third byte, here arbitrary) is read but never used or validated,
so a record whose payload length disagrees with the TLV length still
decodes, to a URI of length TLV length minus 5. -/
theorem C10_payloadLen_unused (a b c t : Nat) (u : List Nat)
    (hu : u.length ≤ 250) :
    readNtagNdefUri (memTransport
        ([0x03, ([a, b, c, t, 0x00] ++ u).length] ++
          ([a, b, c, t, 0x00] ++ u) ++ [0xFE])) = u ∧
    u.length = ([a, b, c, t, 0x00] ++ u).length - 5 := by
  constructor
  · rw [read_written ([a, b, c, t, 0x00] ++ u) (by simp) (by simp; omega),
      parseRecord_cons5]
    rw [(by decide : uriPfx 0x00 = ([] : List Nat)), List.nil_append]
  · simp

/-- C10 witness: a record whose payload-length byte 0x99 disagrees with
its TLV length still decodes to the 2-byte payload. -/
theorem C10_payloadLen_unused_witness :
    ([0x61, 0x62] : List Nat).length ≤ 250 ∧
    readNtagNdefUri (memTransport
        ([0x03, ([0xD1, 0x01, 0x99, 0x55, 0x00] ++ [0x61, 0x62]).length] ++
          ([0xD1, 0x01, 0x99, 0x55, 0x00] ++ [0x61, 0x62]) ++ [0xFE])) =
      [0x61, 0x62] :=
  ⟨by decide, (C10_payloadLen_unused 0xD1 0x01 0x99 0x55 [0x61, 0x62] (by decide)).1⟩

end PocketPitch
